import Mathlib

/-!
Verification of the vault-go cryptographic vault against its specification.

The development shallowly embeds the Go sources:
  * `internal/crypto` (HKDF-SHA256 derivation, AES-GCM framing, ECDSA marshalling),
  * `internal/keystore` (in-memory store and JSON persistence),
  * `internal/server` (key management, signing, encryption facades),
  * `internal/audit` (retained-record query).

Byte strings are `List Nat` with entries below 256.  Machine `uint32`
arithmetic is `Nat` arithmetic reduced modulo `2 ^ 32`.  Randomness (UUIDs,
nonces, ECDSA nonces, fresh key material) is passed in as explicit
parameters.  Components that live in the Go standard library rather than in
the repository (AES block cipher internals, PKCS#8 DER, JSON text) are
modelled from the specification, as flagged by their doc comments.
-/

/-- Byte strings are lists of naturals; `isByteList` states every entry fits in a byte. -/
abbrev Bytes := List Nat

/-- Wellformedness of a byte string: each entry is an actual byte value. -/
def isByteList (l : Bytes) : Prop := ∀ b ∈ l, b < 256

instance : DecidablePred isByteList := fun l =>
  inferInstanceAs (Decidable (∀ b ∈ l, b < 256))

/-- Truncation to 32 bits, the Go `uint32` wrap-around. -/
def w32 (x : Nat) : Nat := x % 4294967296

/-- Right rotation of a 32-bit word by `n` places. -/
def rotr32 (n x : Nat) : Nat := w32 ((x >>> n) ||| (x <<< (32 - n)))

/-- Bitwise complement within 32 bits. -/
def notW (x : Nat) : Nat := x ^^^ 4294967295

/-- SHA-256 big sigma 0. -/
def bigSig0 (x : Nat) : Nat := rotr32 2 x ^^^ rotr32 13 x ^^^ rotr32 22 x

/-- SHA-256 big sigma 1. -/
def bigSig1 (x : Nat) : Nat := rotr32 6 x ^^^ rotr32 11 x ^^^ rotr32 25 x

/-- SHA-256 small sigma 0. -/
def smallSig0 (x : Nat) : Nat := rotr32 7 x ^^^ rotr32 18 x ^^^ (x >>> 3)

/-- SHA-256 small sigma 1. -/
def smallSig1 (x : Nat) : Nat := rotr32 17 x ^^^ rotr32 19 x ^^^ (x >>> 10)

/-- SHA-256 choice function. -/
def chF (x y z : Nat) : Nat := (x &&& y) ^^^ (notW x &&& z)

/-- SHA-256 majority function. -/
def majF (x y z : Nat) : Nat := (x &&& y) ^^^ (x &&& z) ^^^ (y &&& z)

/-- The 64 SHA-256 round constants (FIPS 180-4), written in decimal. -/
def sha256K : List Nat :=
  [1116352408, 1899447441, 3049323471, 3921009573, 961987163,
   1508970993, 2453635748, 2870763221, 3624381080, 310598401,
   607225278, 1426881987, 1925078388, 2162078206, 2614888103,
   3248222580, 3835390401, 4022224774, 264347078, 604807628,
   770255983, 1249150122, 1555081692, 1996064986, 2554220882,
   2821834349, 2952996808, 3210313671, 3336571891, 3584528711,
   113926993, 338241895, 666307205, 773529912, 1294757372,
   1396182291, 1695183700, 1986661051, 2177026350, 2456956037,
   2730485921, 2820302411, 3259730800, 3345764771, 3516065817,
   3600352804, 4094571909, 275423344, 430227734, 506948616,
   659060556, 883997877, 958139571, 1322822218, 1537002063,
   1747873779, 1955562222, 2024104815, 2227730452, 2361852424,
   2428436474, 2756734187, 3204031479, 3329325298]

/-- The SHA-256 working state: eight 32-bit words. -/
structure Hash8 where
  a : Nat
  b : Nat
  c : Nat
  d : Nat
  e : Nat
  f : Nat
  g : Nat
  hh : Nat
deriving DecidableEq

/-- Initial SHA-256 hash value (FIPS 180-4), written in decimal. -/
def sha256Init : Hash8 :=
  ⟨1779033703, 3144134277, 1013904242, 2773480762,
   1359893119, 2600822924, 528734635, 1541459225⟩

/-- One step of the SHA-256 message-schedule extension. -/
def scheduleStep (ws : List Nat) : List Nat :=
  let n := ws.length
  ws ++ [w32 (smallSig1 (ws.getD (n - 2) 0) + ws.getD (n - 7) 0 +
              smallSig0 (ws.getD (n - 15) 0) + ws.getD (n - 16) 0)]

/-- Extend a 16-word block to the 64-word SHA-256 message schedule. -/
def schedule (block : List Nat) : List Nat := scheduleStep^[48] block

/-- One SHA-256 round on the working state, given a (round constant, word) pair. -/
def sha256Round (st : Hash8) (kw : Nat × Nat) : Hash8 :=
  let t1 := w32 (st.hh + bigSig1 st.e + chF st.e st.f st.g + kw.1 + kw.2)
  let t2 := w32 (bigSig0 st.a + majF st.a st.b st.c)
  ⟨w32 (t1 + t2), st.a, st.b, st.c, w32 (st.d + t1), st.e, st.f, st.g⟩

/-- SHA-256 compression function over one 16-word block. -/
def sha256Compress (st : Hash8) (block : List Nat) : Hash8 :=
  let ws := schedule block
  let r := (sha256K.zip ws).foldl sha256Round st
  ⟨w32 (st.a + r.a), w32 (st.b + r.b), w32 (st.c + r.c), w32 (st.d + r.d),
   w32 (st.e + r.e), w32 (st.f + r.f), w32 (st.g + r.g), w32 (st.hh + r.hh)⟩

/-- Pack bytes into big-endian 32-bit words (four bytes per word). -/
def bytesToWords : Bytes → List Nat
  | b0 :: b1 :: b2 :: b3 :: rest =>
      (((b0 * 256 + b1) * 256 + b2) * 256 + b3) :: bytesToWords rest
  | _ => []

/-- Serialize a 32-bit word to four big-endian bytes. -/
def wordBytes (x : Nat) : Bytes :=
  [x / 16777216 % 256, x / 65536 % 256, x / 256 % 256, x % 256]

/-- The eight-byte big-endian bit-length field of SHA-256 padding. -/
def lenBytes64 (len : Nat) : Bytes :=
  let bits := len * 8
  [bits / 72057594037927936 % 256, bits / 281474976710656 % 256,
   bits / 1099511627776 % 256, bits / 4294967296 % 256,
   bits / 16777216 % 256, bits / 65536 % 256, bits / 256 % 256, bits % 256]

/-- SHA-256 message padding: `0x80`, zeros to 56 mod 64, then the bit length. -/
def sha256Pad (msg : Bytes) : Bytes :=
  msg ++ 128 :: List.replicate ((119 - msg.length % 64) % 64) 0 ++ lenBytes64 msg.length

/-- Split a list into chunks of `n` elements (the final chunk may be short). -/
def chunksOf (n : Nat) (l : List Nat) : List (List Nat) :=
  if n = 0 ∨ l.length = 0 then [] else l.take n :: chunksOf n (l.drop n)
termination_by l.length
decreasing_by simp only [List.length_drop]; omega

/-- SHA-256 of a byte string, as 32 bytes. -/
def sha256 (msg : Bytes) : Bytes :=
  let fin := (chunksOf 64 (sha256Pad msg)).foldl
    (fun st b => sha256Compress st (bytesToWords b)) sha256Init
  wordBytes fin.a ++ wordBytes fin.b ++ wordBytes fin.c ++ wordBytes fin.d ++
  wordBytes fin.e ++ wordBytes fin.f ++ wordBytes fin.g ++ wordBytes fin.hh

theorem sha256_length (msg : Bytes) : (sha256 msg).length = 32 := by
  simp [sha256, wordBytes]

/-- HMAC-SHA256 (RFC 2104): the key is hashed if longer than the 64-byte block,
zero-padded to the block size, and combined with the inner/outer pads. -/
def hmacSha256 (key msg : Bytes) : Bytes :=
  let k0 := if key.length > 64 then sha256 key else key
  let kp := k0 ++ List.replicate (64 - k0.length) 0
  sha256 (kp.map (fun b => b ^^^ 92) ++ sha256 (kp.map (fun b => b ^^^ 54) ++ msg))

theorem hmacSha256_length (key msg : Bytes) : (hmacSha256 key msg).length = 32 := by
  simp [hmacSha256, sha256_length]

/-- HKDF-SHA256 extract step (RFC 5869): `PRK = HMAC-SHA256(salt, ikm)`. -/
def hkdfExtract (salt ikm : Bytes) : Bytes := hmacSha256 salt ikm

/-- Concatenation of the first `n` HKDF-SHA256 expansion blocks
`T(i) = HMAC(prk, T(i-1) ‖ info ‖ i)`, starting from `prev = T(i-1)`
and running counter `i`. -/
def hkdfBlocks (prk info : Bytes) : Bytes → Nat → Nat → Bytes
  | _, _, 0 => []
  | prev, i, n + 1 =>
      let t := hmacSha256 prk (prev ++ info ++ [i])
      t ++ hkdfBlocks prk info t (i + 1) n

/-- HKDF-SHA256 expand step (RFC 5869): first `len` bytes of `T(1) ‖ T(2) ‖ …`. -/
def hkdfExpand (prk info : Bytes) (len : Nat) : Bytes :=
  (hkdfBlocks prk info [] 1 ((len + 31) / 32)).take len

/-- Full HKDF-SHA256 with explicit salt, input key material, info and length. -/
def hkdfSha256 (salt ikm info : Bytes) (len : Nat) : Bytes :=
  hkdfExpand (hkdfExtract salt ikm) info len

theorem hkdfBlocks_length (prk info : Bytes) :
    ∀ (prev : Bytes) (i n : Nat), (hkdfBlocks prk info prev i n).length = 32 * n := by
  intro prev i n
  induction n generalizing prev i with
  | zero => simp [hkdfBlocks]
  | succ n ih => simp [hkdfBlocks, hmacSha256_length, ih, Nat.mul_succ]; ring

theorem hkdfExpand_length (prk info : Bytes) (len : Nat) :
    (hkdfExpand prk info len).length = len := by
  simp only [hkdfExpand, List.length_take, hkdfBlocks_length]
  have h := Nat.div_add_mod (len + 31) 32
  have h2 := Nat.mod_lt (len + 31) (show 0 < 32 by omega)
  omega

/-- The Go `crypto.DeriveKey` function (internal/crypto): rejects lengths
outside `[1, 64]`, then reads `length` bytes of `hkdf.New(sha256.New,
rootKey, nil, context)`.  A nil salt is replaced by 32 zero bytes by
`x/crypto/hkdf`, per RFC 5869. -/
def DeriveKey (rootKey context : Bytes) (length : Int) : Except String Bytes :=
  if length ≤ 0 ∨ length > 64 then
    .error "invalid derived key length (must be 1-64)"
  else
    .ok (hkdfExpand (hkdfExtract (List.replicate 32 0) rootKey) context length.toNat)

/-- HMAC-SHA256 treats an empty key and a 32-zero-byte key identically:
both zero-pad to the same 64-zero-byte block key. -/
theorem hmacSha256_empty_key_eq_zeros32 (msg : Bytes) :
    hmacSha256 [] msg = hmacSha256 (List.replicate 32 0) msg := by
  have h : ([] : Bytes) ++ List.replicate (64 - ([] : Bytes).length) 0 =
      List.replicate 32 0 ++ List.replicate (64 - (List.replicate 32 (0 : Nat)).length) 0 := by
    decide
  simp only [hmacSha256]
  rw [if_neg (by decide), if_neg (by simp)]
  rw [h]

/-- Injective encoding of a byte string into a natural number (base 257 with
offset digits), used by the ideal-AEAD model below. -/
def encodeBytes (l : Bytes) : Nat := l.foldr (fun a r => r * 257 + (a + 1)) 0

theorem encodeBytes_nil : encodeBytes [] = 0 := rfl

theorem encodeBytes_cons (a : Nat) (t : Bytes) :
    encodeBytes (a :: t) = encodeBytes t * 257 + (a + 1) := rfl

theorem encodeBytes_injOn : ∀ {l1 l2 : Bytes}, isByteList l1 → isByteList l2 →
    encodeBytes l1 = encodeBytes l2 → l1 = l2 := by
  intro l1
  induction l1 with
  | nil =>
    intro l2 _ h2 he
    cases l2 with
    | nil => rfl
    | cons b t => rw [encodeBytes_nil, encodeBytes_cons] at he; omega
  | cons a t ih =>
    intro l2 h1 h2 he
    cases l2 with
    | nil => rw [encodeBytes_nil, encodeBytes_cons] at he; omega
    | cons b s =>
      rw [encodeBytes_cons, encodeBytes_cons] at he
      have ha : a < 256 := h1 a (by simp)
      have hb : b < 256 := h2 b (by simp)
      have hab : a = b ∧ encodeBytes t = encodeBytes s := by
        constructor <;> omega
      have ht : t = s := ih (fun x hx => h1 x (by simp [hx]))
        (fun x hx => h2 x (by simp [hx])) hab.2
      rw [hab.1, ht]

/-- Nonce size of Go `cipher.NewGCM`: 12 bytes. -/
def gcmNonceSize : Nat := 12

/-- Modelled from the spec: the CTR keystream of the Go standard library
AES-GCM (an idealized pseudorandom byte stream determined by key, nonce and
position; the AES block cipher itself is not part of this repository). -/
def gcmKeystream (key nonce : Bytes) (i : Nat) : Nat :=
  Nat.pair (encodeBytes key) (Nat.pair (encodeBytes nonce) i) % 256

/-- The encrypted portion of a GCM sealing: plaintext XOR keystream. -/
def gcmCtPart (key nonce pt : Bytes) : Bytes :=
  List.zipWith (fun a b => a ^^^ b) pt ((List.range pt.length).map (gcmKeystream key nonce))

/-- Modelled from the spec: the GCM authentication tag of the Go standard
library, idealized as a value that authenticates exactly the (key, nonce,
additional data, ciphertext) quadruple.  The real 16-byte tag is collapsed
to a single list entry so that its size, like the real tag's, does not
depend on the authenticated data. -/
def gcmTag (key nonce aad ct : Bytes) : Nat :=
  Nat.pair (encodeBytes key)
    (Nat.pair (encodeBytes nonce) (Nat.pair (encodeBytes aad) (encodeBytes ct)))

/-- Modelled from the spec: Go `gcm.Seal nil nonce pt aad` — ciphertext
followed by the authentication tag. -/
def gcmSeal (key nonce pt aad : Bytes) : Bytes :=
  gcmCtPart key nonce pt ++ [gcmTag key nonce aad (gcmCtPart key nonce pt)]

/-- Modelled from the spec: Go `gcm.Open nil nonce ctag aad` — splits off the
trailing tag, recomputes it over (key, nonce, aad, ciphertext), and decrypts
only on an exact match. -/
def gcmOpen (key nonce ctag aad : Bytes) : Option Bytes :=
  if ctag.length < 1 then none
  else
    let ct := ctag.take (ctag.length - 1)
    let tag := ctag.drop (ctag.length - 1)
    if tag = [gcmTag key nonce aad ct] then
      some (List.zipWith (fun a b => a ^^^ b) ct
        ((List.range ct.length).map (gcmKeystream key nonce)))
    else none

/-- Modelled from the spec: Go `aes.NewCipher` accepts AES-128/192/256 keys,
i.e. keys of exactly 16, 24 or 32 bytes, and fails otherwise. -/
def aesKeySizeOk (key : Bytes) : Bool :=
  key.length == 16 || key.length == 24 || key.length == 32

/-- The 12 nonce bytes drawn from the random source (Go `rand.Read` into a
`gcm.NonceSize()`-byte buffer); `rand` models the CSPRNG byte stream. -/
def gcmNonce (rand : Nat → Nat) : Bytes :=
  (List.range gcmNonceSize).map (fun i => rand i % 256)

/-- The Go `crypto.EncryptAESGCM` function (internal/crypto/aesgcm.go):
build the AES cipher (failing on a bad key size), draw a 12-byte random
nonce, and return `gcm.Seal(nonce, nonce, plaintext, aad)`, i.e. the nonce
followed by ciphertext and tag. -/
def EncryptAESGCM (rand : Nat → Nat) (key plaintext aad : Bytes) : Except String Bytes :=
  if aesKeySizeOk key then
    .ok (gcmNonce rand ++ gcmSeal key (gcmNonce rand) plaintext aad)
  else
    .error "aes new cipher: invalid key size"

/-- The Go `crypto.DecryptAESGCM` function (internal/crypto/aesgcm.go):
build the AES cipher, reject inputs shorter than the nonce, then split the
nonce off and call `gcm.Open`. -/
def DecryptAESGCM (key ciphertext aad : Bytes) : Except String Bytes :=
  if aesKeySizeOk key then
    if ciphertext.length < gcmNonceSize then .error "ciphertext too short"
    else
      match gcmOpen key (ciphertext.take gcmNonceSize)
        (ciphertext.drop gcmNonceSize) aad with
      | some pt => .ok pt
      | none => .error "aes gcm decrypt"
  else .error "aes new cipher: invalid key size"

/-- Whether an `Except` computation succeeded. -/
def exceptOk {ε α : Type} : Except ε α → Bool
  | .ok _ => true
  | .error _ => false

deriving instance DecidableEq for Except

/-- Modelled from the spec: an ECDSA private key as handled by the Go
standard library, represented by its PKCS#8 DER serialization (the spec
makes this encoding canonical: byte-equal PKCS#8 for identical inputs). -/
structure PrivKey where
  pkcs8 : Bytes
deriving DecidableEq

/-- Modelled from the spec: the public counterpart of an ECDSA private key,
as an opaque value determined by (and only by) the private key. -/
structure PubKey where
  ofPriv : PrivKey
deriving DecidableEq

/-- The public key embedded in a Go `ecdsa.PrivateKey`. -/
def publicKeyOf (k : PrivKey) : PubKey := ⟨k⟩

/-- The Go `crypto.MarshalPrivateKey` function: PKCS#8 DER encoding. -/
def marshalPrivateKey (k : PrivKey) : Bytes := k.pkcs8

/-- The Go `crypto.UnmarshalPrivateKey` function.  Modelled from the spec:
on the range of `marshalPrivateKey` it is the exact inverse. -/
def unmarshalPrivateKey (der : Bytes) : Except String PrivKey := .ok ⟨der⟩

/-- Modelled from the spec: an ASN.1 DER ECDSA signature, symbolically a
record of the signing key's public counterpart, the signed data, and the
signing randomness (ECDSA signatures are randomized). -/
structure SigVal where
  signer : PubKey
  message : Bytes
  nonce : Bytes
deriving DecidableEq

/-- The Go `crypto.SignECDSA` function (symbolic): randomized signature over
SHA-256 of the data. -/
def signECDSA (k : PrivKey) (rand data : Bytes) : SigVal :=
  ⟨publicKeyOf k, data, rand⟩

/-- The Go `crypto.VerifyECDSA` function (symbolic): a signature verifies
exactly under the matching public key and data. -/
def verifyECDSA (p : PubKey) (data : Bytes) (s : SigVal) : Bool :=
  s.signer == p && s.message == data

/-- Go `keystore.KeyAlgorithm`: integer tags, 1 = ECDSA_P256, 2 = ECDSA_P384. -/
abbrev KeyAlgorithm := Nat

/-- Tag of `keystore.AlgorithmECDSAP256`. -/
def AlgorithmECDSAP256 : KeyAlgorithm := 1

/-- Tag of `keystore.AlgorithmECDSAP384`. -/
def AlgorithmECDSAP384 : KeyAlgorithm := 2

/-- Go `keystore.KeyStatus`: integer tags, 1 = ACTIVE, 2 = ROTATED, 3 = DEACTIVATED. -/
abbrev KeyStatus := Nat

/-- Tag of `keystore.StatusActive`. -/
def StatusActive : KeyStatus := 1

/-- Tag of `keystore.StatusRotated`. -/
def StatusRotated : KeyStatus := 2

/-- Tag of `keystore.StatusDeactivated`. -/
def StatusDeactivated : KeyStatus := 3

/-- Go `keystore.KeyEntry`: a stored key with its metadata.  The zero time
of Go `time.Time` is modelled as the instant `0` (so `rotatedAt = 0` means
"never rotated"). -/
structure KeyEntry where
  id : String
  algorithm : KeyAlgorithm
  status : KeyStatus
  privateKey : PrivKey
  createdAt : Nat
  rotatedAt : Nat
  labels : List (String × String)
deriving DecidableEq

/-- Errors of the keystore: Go `keystore.ErrKeyNotFound` and the
"key already exists" error produced by `Put`. -/
inductive StoreError
  | keyNotFound
  | keyExists
deriving DecidableEq

/-- Go `keystore.MemoryStore`: the `map[string]*KeyEntry` is modelled as a
list of entries looked up by id (insertion order carries no meaning, as map
iteration order is unspecified). -/
abbrev MemoryStore := List KeyEntry

/-- Go `MemoryStore.Put`: inserts, failing if the id is already present. -/
def MemoryStore.Put (m : MemoryStore) (entry : KeyEntry) : Except StoreError MemoryStore :=
  if m.any (fun e => e.id == entry.id) then .error .keyExists
  else .ok (m ++ [entry])

/-- Go `MemoryStore.Get`: looks an entry up by id, failing with
`ErrKeyNotFound` if absent. -/
def MemoryStore.Get (m : MemoryStore) (id : String) : Except StoreError KeyEntry :=
  match m.find? (fun e => e.id == id) with
  | some e => .ok e
  | none => .error .keyNotFound

/-- Go `MemoryStore.UpdateStatus`: sets the status of an existing entry,
failing with `ErrKeyNotFound` if absent.  No monotonicity is enforced. -/
def MemoryStore.UpdateStatus (m : MemoryStore) (id : String) (status : KeyStatus) :
    Except StoreError MemoryStore :=
  if m.any (fun e => e.id == id) then
    .ok (m.map (fun e => if e.id == id then { e with status := status } else e))
  else .error .keyNotFound

/-- Go `persistedKey` (internal/keystore/persistent.go): the JSON-serializable
form of a `KeyEntry`, with the private key as PKCS#8 DER bytes. -/
structure PersistedKey where
  id : String
  algorithm : KeyAlgorithm
  status : KeyStatus
  privateKeyDER : Bytes
  createdAt : Nat
  rotatedAt : Nat
  labels : List (String × String)
deriving DecidableEq

/-- The record built for one entry by `PersistentStore.save`. -/
def persistEntry (e : KeyEntry) : PersistedKey :=
  ⟨e.id, e.algorithm, e.status, marshalPrivateKey e.privateKey,
   e.createdAt, e.rotatedAt, e.labels⟩

/-- Go `PersistentStore.save`: serializes every entry of the store.  The
JSON text and the atomic temp-file rename are the Go standard library, so
the persisted state is modelled as the list of records written. -/
def saveStore (m : MemoryStore) : List PersistedKey := m.map persistEntry

/-- Reconstruction of one entry by `PersistentStore.load`. -/
def loadEntry (pk : PersistedKey) : Except String KeyEntry :=
  match unmarshalPrivateKey pk.privateKeyDER with
  | .error e => .error e
  | .ok key =>
      .ok ⟨pk.id, pk.algorithm, pk.status, key, pk.createdAt, pk.rotatedAt, pk.labels⟩

/-- Go `PersistentStore.load`: reads the persisted records back into a
store, failing if any private key fails to parse. -/
def loadStore (pks : List PersistedKey) : Except String MemoryStore :=
  pks.mapM loadEntry

/-- The gRPC status codes surfaced by the facade. -/
inductive GrpcCode
  | invalidArgument
  | notFound
  | failedPrecondition
  | internal
deriving DecidableEq

/-- Go `server.keyError`: `ErrKeyNotFound` becomes NotFound, anything else
Internal. -/
def keyError : StoreError → GrpcCode
  | .keyNotFound => .notFound
  | .keyExists => .internal

/-- Go `pb.KeyMetadata` as built by `entryToProto`: the caller-visible view
of an entry.  `rotatedAt` is present only when the entry has rotated. -/
structure KeyMetadata where
  keyId : String
  algorithm : Nat
  status : Nat
  createdAt : Nat
  rotatedAt : Option Nat
  labels : List (String × String)
deriving DecidableEq

/-- Go `server.algoToProto`: known tags map to themselves, anything else to
UNSPECIFIED (0). -/
def algoToProto (a : KeyAlgorithm) : Nat := if a = 1 ∨ a = 2 then a else 0

/-- Go `server.statusToProto`: known tags map to themselves, anything else
to UNSPECIFIED (0). -/
def statusToProto (s : KeyStatus) : Nat := if s = 1 ∨ s = 2 ∨ s = 3 then s else 0

/-- Go `server.entryToProto`. -/
def entryToProto (e : KeyEntry) : KeyMetadata :=
  ⟨e.id, algoToProto e.algorithm, statusToProto e.status, e.createdAt,
   if e.rotatedAt = 0 then none else some e.rotatedAt, e.labels⟩

/-- The write through the aliased entry pointer in Go `RotateKey`: the
`old` value returned by `Get` aliases the stored entry, so the assignment
`old.RotatedAt = time.Now()` updates the store itself. -/
def setRotatedAt (m : MemoryStore) (id : String) (t : Nat) : MemoryStore :=
  m.map (fun e => if e.id == id then { e with rotatedAt := t } else e)

/-- Go `KeyManagementServer.RotateKey` (internal/server/keymgmt.go).  The
fresh UUID (`newId`), the freshly generated key material (`newKey`) and the
two `time.Now()` instants (`createdNow` for the new entry, `rotatedNow` for
the old entry's rotation stamp) enter as explicit parameters.  On any error
the store is returned unchanged by the caller, so the error cases carry no
store. -/
def rotateKey (st : MemoryStore) (keyId newId : String) (newKey : PrivKey)
    (createdNow rotatedNow : Nat) :
    Except GrpcCode (MemoryStore × KeyMetadata × KeyMetadata) :=
  match st.Get keyId with
  | .error e => .error (keyError e)
  | .ok old =>
    if old.status ≠ StatusActive then .error .failedPrecondition
    else
      let newEntry : KeyEntry :=
        ⟨newId, old.algorithm, StatusActive, newKey, createdNow, 0, old.labels⟩
      match st.UpdateStatus keyId StatusRotated with
      | .error _ => .error .internal
      | .ok st1 =>
        let st2 := setRotatedAt st1 keyId rotatedNow
        let old2 := { old with status := StatusRotated, rotatedAt := rotatedNow }
        match st2.Put newEntry with
        | .error _ => .error .internal
        | .ok st3 => .ok (st3, entryToProto old2, entryToProto newEntry)

/-- Go `KeyManagementServer.DeactivateKey`: unconditionally updates the
status to DEACTIVATED (no status precondition), then re-reads the entry for
the response metadata.  The re-read cannot fail after a successful update;
Go ignores its error, which the model renders as an unreachable Internal. -/
def deactivateKey (st : MemoryStore) (keyId : String) :
    Except GrpcCode (MemoryStore × KeyMetadata) :=
  match st.UpdateStatus keyId StatusDeactivated with
  | .error e => .error (keyError e)
  | .ok st1 =>
    match st1.Get keyId with
    | .ok entry => .ok (st1, entryToProto entry)
    | .error _ => .error .internal

/-- Go `SigningServer.Sign` (internal/server/signing.go): not-found for an
unknown id, failed-precondition unless the key is ACTIVE, then an HSM
signature (signing randomness is the explicit `rand`). -/
def signOp (st : MemoryStore) (keyId : String) (data rand : Bytes) :
    Except GrpcCode (SigVal × String) :=
  match st.Get keyId with
  | .error e => .error (keyError e)
  | .ok entry =>
    if entry.status ≠ StatusActive then .error .failedPrecondition
    else .ok (signECDSA entry.privateKey rand data, keyId)

/-- Go `SigningServer.Verify`: not-found for an unknown id; otherwise the
verification result for the entry's public key, with no status check. -/
def verifyOp (st : MemoryStore) (keyId : String) (data : Bytes) (sig : SigVal) :
    Except GrpcCode Bool :=
  match st.Get keyId with
  | .error e => .error (keyError e)
  | .ok entry => .ok (verifyECDSA (publicKeyOf entry.privateKey) data sig)

/-- The info label of the symmetric-from-asymmetric construction: the UTF-8
bytes of the string "vault-aes-gcm". -/
def vaultAesGcmLabel : Bytes :=
  [118, 97, 117, 108, 116, 45, 97, 101, 115, 45, 103, 99, 109]

/-- Go `server.deriveSymmetricKey` (encryption server): HKDF-SHA256 of the
PKCS#8 private key bytes with info "vault-aes-gcm" and length 32. -/
def deriveSymmetricKey (e : KeyEntry) : Except String Bytes :=
  DeriveKey (marshalPrivateKey e.privateKey) vaultAesGcmLabel 32

/-- Go `EncryptionServer.Encrypt`: not-found, failed-precondition unless
ACTIVE, then AES-GCM under the derived symmetric key. -/
def encryptOp (rand : Nat → Nat) (st : MemoryStore) (keyId : String)
    (plaintext aad : Bytes) : Except GrpcCode (Bytes × String) :=
  match st.Get keyId with
  | .error e => .error (keyError e)
  | .ok entry =>
    if entry.status ≠ StatusActive then .error .failedPrecondition
    else
      match deriveSymmetricKey entry with
      | .error _ => .error .internal
      | .ok symKey =>
        match EncryptAESGCM rand symKey plaintext aad with
        | .error _ => .error .internal
        | .ok ct => .ok (ct, keyId)

/-- Go `EncryptionServer.Decrypt`: not-found for an unknown id, no status
check, AEAD failure surfaced as invalid-argument. -/
def decryptOp (st : MemoryStore) (keyId : String) (ciphertext aad : Bytes) :
    Except GrpcCode Bytes :=
  match st.Get keyId with
  | .error e => .error (keyError e)
  | .ok entry =>
    match deriveSymmetricKey entry with
    | .error _ => .error .internal
    | .ok symKey =>
      match DecryptAESGCM symKey ciphertext aad with
      | .error _ => .error .invalidArgument
      | .ok pt => .ok pt

/-- Go `EncryptionServer.DeriveKey`: not-found, failed-precondition unless
the root is ACTIVE, invalid-argument for a length outside [1, 64], then
HKDF over the marshalled root key. -/
def deriveKeyOp (st : MemoryStore) (rootKeyId : String) (context : Bytes)
    (length : Int) : Except GrpcCode Bytes :=
  match st.Get rootKeyId with
  | .error e => .error (keyError e)
  | .ok entry =>
    if entry.status ≠ StatusActive then .error .failedPrecondition
    else if length ≤ 0 ∨ length > 64 then .error .invalidArgument
    else
      match DeriveKey (marshalPrivateKey entry.privateKey) context length with
      | .error _ => .error .internal
      | .ok derived => .ok derived

/-- Go `audit.Entry` (internal/audit/logger.go). -/
structure AuditRecord where
  id : String
  timestamp : Nat
  operation : String
  keyID : String
  status : String
  peerAddress : String
  metadata : List (String × String)
deriving DecidableEq

/-- The per-record filter of Go `Logger.Query`: a record is skipped when a
non-empty key-id or operation filter differs, when a non-zero start lies
after its timestamp, or when a non-zero end lies before it. -/
def auditMatches (keyID operation : String) (start endT : Nat) (e : AuditRecord) : Bool :=
  !(keyID != "" && e.keyID != keyID) &&
  !(operation != "" && e.operation != operation) &&
  !(start != 0 && decide (e.timestamp < start)) &&
  !(endT != 0 && decide (endT < e.timestamp))

/-- The accumulation loop of Go `Logger.Query`: walk the retained records
from newest to oldest, keep matching ones, and break once `limit > 0`
records have been collected (`cnt` is the number collected so far). -/
def queryAux (f : AuditRecord → Bool) (limit : Int) :
    List AuditRecord → Nat → List AuditRecord
  | [], _ => []
  | e :: rest, cnt =>
    if f e then
      if limit > 0 ∧ ((cnt : Int) + 1) ≥ limit then [e]
      else e :: queryAux f limit rest (cnt + 1)
    else queryAux f limit rest cnt

/-- Go `Logger.Query`: iterates the retained store from the last index
down, which is the forward traversal of the reversed list. -/
def auditQuery (store : List AuditRecord) (keyID operation : String)
    (start endT : Nat) (limit : Int) : List AuditRecord :=
  queryAux (auditMatches keyID operation start endT) limit store.reverse 0

/-- The specification's description of the audit query: the retained
records matching all provided filters, newest first, truncated to `limit`
when `limit > 0` and unbounded otherwise. -/
def auditQuerySpec (store : List AuditRecord) (keyID operation : String)
    (start endT : Nat) (limit : Int) : List AuditRecord :=
  let m := store.reverse.filter (auditMatches keyID operation start endT)
  if limit > 0 then m.take limit.toNat else m

theorem get_ok_mem {m : MemoryStore} {id : String} {e : KeyEntry}
    (h : m.Get id = .ok e) : e ∈ m ∧ e.id = id := by
  unfold MemoryStore.Get at h
  cases hf : m.find? (fun x => x.id == id) with
  | none => rw [hf] at h; exact absurd h (by simp)
  | some x =>
    rw [hf] at h
    cases h
    exact ⟨List.mem_of_find?_eq_some hf, by
      have := List.find?_some hf
      simpa using this⟩

theorem get_err_iff {m : MemoryStore} {id : String} :
    m.Get id = .error .keyNotFound ↔ ∀ x ∈ m, x.id ≠ id := by
  unfold MemoryStore.Get
  cases hf : m.find? (fun x => x.id == id) with
  | none =>
    simp only [true_iff]
    intro x hx
    have := List.find?_eq_none.mp hf x hx
    simpa using this
  | some x =>
    constructor
    · intro h; exact absurd h (by simp)
    · intro h
      have hmem := List.mem_of_find?_eq_some hf
      have hid : x.id = id := by simpa using List.find?_some hf
      exact absurd hid (h x hmem)

theorem get_absent_any_false {m : MemoryStore} {id : String}
    (h : m.Get id = .error .keyNotFound) :
    m.any (fun e => e.id == id) = false := by
  rw [List.any_eq_false]
  intro x hx
  simpa using get_err_iff.mp h x hx

/-- C6: putting an entry under an absent id succeeds; a second put of any
entry with the same id fails with already-exists and leaves the first entry
in place; and `Get` fails with not-found exactly when no entry with that id
is stored. -/
theorem put_twice_and_get_contract (st : MemoryStore) (e e2 : KeyEntry) :
    (st.Get e.id = .error .keyNotFound →
      st.Put e = .ok (st ++ [e]) ∧
      (e2.id = e.id → (st ++ [e]).Put e2 = .error .keyExists) ∧
      (st ++ [e]).Get e.id = .ok e) ∧
    (∀ id, st.Get id = .error .keyNotFound ↔ ∀ x ∈ st, x.id ≠ id) := by
  refine ⟨fun habs => ⟨?_, fun h2 => ?_, ?_⟩, fun id => get_err_iff⟩
  · simp [MemoryStore.Put, get_absent_any_false habs]
  · simp [MemoryStore.Put, List.any_append, h2]
  · have hf : st.find? (fun x => x.id == e.id) = none := by
      rw [List.find?_eq_none]
      intro x hx
      simpa using get_err_iff.mp habs x hx
    simp [MemoryStore.Get, List.find?_append, hf]

/-- Witness for C6 at a concrete store and entries. -/
theorem put_twice_and_get_contract_witness :
    MemoryStore.Put [] ⟨"k1", 1, 1, ⟨[1]⟩, 5, 0, []⟩ =
      .ok [⟨"k1", 1, 1, ⟨[1]⟩, 5, 0, []⟩] ∧
    MemoryStore.Put [⟨"k1", 1, 1, ⟨[1]⟩, 5, 0, []⟩]
      ⟨"k1", 2, 3, ⟨[2]⟩, 6, 0, []⟩ = .error .keyExists := by
  have h := put_twice_and_get_contract [] ⟨"k1", 1, 1, ⟨[1]⟩, 5, 0, []⟩
    ⟨"k1", 2, 3, ⟨[2]⟩, 6, 0, []⟩
  have h1 := h.1 (by decide)
  exact ⟨by simpa using h1.1, by simpa using h1.2.1 rfl⟩

theorem find?_map_update (m : MemoryStore) (id : String) (g : KeyEntry → KeyEntry)
    (hg : ∀ x, (g x).id = x.id) :
    (m.map (fun x => if x.id == id then g x else x)).find? (fun x => x.id == id) =
    (m.find? (fun x => x.id == id)).map g := by
  induction m with
  | nil => rfl
  | cons a t ih =>
    by_cases ha : a.id = id
    · simp [List.find?_cons, ha, hg]
    · have hb : ¬((a.id == id) = true) := by simp [ha]
      have hb' : (a.id == id) = false := by simpa using hb
      rw [List.map_cons, if_neg hb]
      simp only [List.find?_cons, hb', ih]

theorem ids_map_update (m : MemoryStore) (id : String) (g : KeyEntry → KeyEntry)
    (hg : ∀ x, (g x).id = x.id) :
    (m.map (fun x => if x.id == id then g x else x)).map (fun e => e.id) =
      m.map (fun e => e.id) := by
  rw [List.map_map]
  apply List.map_congr_left
  intro x _
  by_cases hx : x.id = id <;> simp [hx, hg]

theorem updateStatus_of_get {m : MemoryStore} {id : String} {e : KeyEntry}
    (h : m.Get id = .ok e) (status : KeyStatus) :
    m.UpdateStatus id status =
      .ok (m.map (fun x => if x.id == id then { x with status := status } else x)) := by
  obtain ⟨hmem, hid⟩ := get_ok_mem h
  unfold MemoryStore.UpdateStatus
  rw [if_pos]
  rw [List.any_eq_true]
  exact ⟨e, hmem, by simp [hid]⟩

theorem get_map_update {m : MemoryStore} {id : String} {e : KeyEntry}
    (g : KeyEntry → KeyEntry) (hg : ∀ x, (g x).id = x.id)
    (h : m.Get id = .ok e) :
    MemoryStore.Get (m.map (fun x => if x.id == id then g x else x)) id = .ok (g e) := by
  unfold MemoryStore.Get at h ⊢
  rw [find?_map_update m id g hg]
  cases hf : m.find? (fun x => x.id == id) with
  | none => rw [hf] at h; exact absurd h (by simp)
  | some x => rw [hf] at h; cases h; rfl

theorem get_ok_iff_find? {m : MemoryStore} {id : String} {e : KeyEntry} :
    m.Get id = .ok e ↔ m.find? (fun x => x.id == id) = some e := by
  unfold MemoryStore.Get
  cases hf : m.find? (fun x => x.id == id) <;> simp

/-- C10: `DeactivateKey` succeeds for every stored key regardless of its
current status, unconditionally setting the status to DEACTIVATED in the
store and in the returned metadata; it never checks the prior status (no
failed-precondition), and fails with not-found exactly when the id is
absent. -/
theorem deactivate_any_status (st : MemoryStore) (keyId : String) :
    (∀ e, st.Get keyId = .ok e →
      deactivateKey st keyId =
        .ok (st.map (fun x => if x.id == keyId then
              { x with status := StatusDeactivated } else x),
            entryToProto { e with status := StatusDeactivated }) ∧
      (entryToProto { e with status := StatusDeactivated }).status = StatusDeactivated) ∧
    (st.Get keyId = .error .keyNotFound → deactivateKey st keyId = .error .notFound) ∧
    ∀ c, deactivateKey st keyId ≠ .error .failedPrecondition ∧
      (deactivateKey st keyId = .error c → c = .notFound ∨ c = .internal) := by
  refine ⟨fun e he => ?_, fun habs => ?_, fun c => ?_⟩
  · have hup := updateStatus_of_get he StatusDeactivated
    have hget : MemoryStore.Get
        (st.map (fun x => if x.id == keyId then { x with status := StatusDeactivated } else x))
        keyId = .ok { e with status := StatusDeactivated } :=
      get_map_update (fun x => { x with status := StatusDeactivated }) (fun x => rfl) he
    unfold deactivateKey
    rw [hup]
    simp only [hget]
    exact ⟨by trivial, by simp [entryToProto, statusToProto, StatusDeactivated]⟩
  · unfold deactivateKey MemoryStore.UpdateStatus
    rw [if_neg]
    · rfl
    · rw [get_absent_any_false habs]; simp
  · unfold deactivateKey
    cases hup : st.UpdateStatus keyId StatusDeactivated with
    | error err =>
      have herr : err = .keyNotFound := by
        unfold MemoryStore.UpdateStatus at hup
        by_cases hany : st.any (fun e => e.id == keyId) = true
        · simp [hany] at hup
        · simp [hany] at hup
          exact hup.symm
      subst herr
      exact ⟨by simp [keyError], by intro h; cases h; exact .inl rfl⟩
    | ok st1 =>
      cases hget : st1.Get keyId with
      | ok entry =>
        simp only [hget]
        exact ⟨by simp, by intro h; cases h⟩
      | error err =>
        simp only [hget]
        exact ⟨by simp, by intro h; cases h; exact .inr rfl⟩

/-- Witness for C10 at a concrete store holding one ROTATED key. -/
theorem deactivate_any_status_witness :
    deactivateKey [⟨"k1", 1, 2, ⟨[1]⟩, 5, 0, []⟩] "k1" =
      .ok ([⟨"k1", 1, 3, ⟨[1]⟩, 5, 0, []⟩], ⟨"k1", 1, 3, 5, none, []⟩) := by
  have h := (deactivate_any_status [⟨"k1", 1, 2, ⟨[1]⟩, 5, 0, []⟩] "k1").1
    ⟨"k1", 1, 2, ⟨[1]⟩, 5, 0, []⟩ (by decide)
  rw [h.1]
  decide

theorem setRotatedAt_after_update (st : MemoryStore) (keyId : String) (rNow : Nat) :
    setRotatedAt
      (st.map (fun x => if x.id == keyId then { x with status := StatusRotated } else x))
      keyId rNow =
    st.map (fun x => if x.id == keyId then
      { x with status := StatusRotated, rotatedAt := rNow } else x) := by
  unfold setRotatedAt
  rw [List.map_map]
  apply List.map_congr_left
  intro x _
  by_cases hx : x.id = keyId <;> simp [hx]

theorem mem_map_update_id {st : MemoryStore} {keyId : String} {g : KeyEntry → KeyEntry}
    (hg : ∀ x, (g x).id = x.id) {y : KeyEntry}
    (hy : y ∈ st.map (fun x => if x.id == keyId then g x else x)) :
    ∃ x ∈ st, y.id = x.id := by
  obtain ⟨x, hx, rfl⟩ := List.mem_map.mp hy
  refine ⟨x, hx, ?_⟩
  by_cases h : x.id = keyId <;> simp [h, hg]

/-- C1: rotating an ACTIVE key installs a fresh ACTIVE entry with the same
algorithm and labels under the new id, flips the stored old entry to
ROTATED stamping `rotated_at`, and returns both metadata records; rotating
a key that is not ACTIVE fails with failed-precondition (before any
mutation, so no entry changes). -/
theorem rotate_contract (st : MemoryStore) (keyId newId : String) (newKey : PrivKey)
    (cNow rNow : Nat) (old : KeyEntry) (h : st.Get keyId = .ok old) :
    (old.status = StatusActive → (∀ x ∈ st, x.id ≠ newId) → 0 < rNow →
      rotateKey st keyId newId newKey cNow rNow =
        .ok (st.map (fun x => if x.id == keyId then
                { x with status := StatusRotated, rotatedAt := rNow } else x)
              ++ [⟨newId, old.algorithm, StatusActive, newKey, cNow, 0, old.labels⟩],
            entryToProto { old with status := StatusRotated, rotatedAt := rNow },
            entryToProto (⟨newId, old.algorithm, StatusActive, newKey, cNow, 0,
              old.labels⟩ : KeyEntry)) ∧
      MemoryStore.Get
        (st.map (fun x => if x.id == keyId then
            { x with status := StatusRotated, rotatedAt := rNow } else x)
          ++ [⟨newId, old.algorithm, StatusActive, newKey, cNow, 0, old.labels⟩]) keyId =
        .ok { old with status := StatusRotated, rotatedAt := rNow } ∧
      MemoryStore.Get
        (st.map (fun x => if x.id == keyId then
            { x with status := StatusRotated, rotatedAt := rNow } else x)
          ++ [⟨newId, old.algorithm, StatusActive, newKey, cNow, 0, old.labels⟩]) newId =
        .ok ⟨newId, old.algorithm, StatusActive, newKey, cNow, 0, old.labels⟩ ∧
      newId ≠ keyId ∧
      (entryToProto (⟨newId, old.algorithm, StatusActive, newKey, cNow, 0,
        old.labels⟩ : KeyEntry)).status = StatusActive ∧
      (entryToProto (⟨newId, old.algorithm, StatusActive, newKey, cNow, 0,
        old.labels⟩ : KeyEntry)).algorithm =
        (entryToProto { old with status := StatusRotated, rotatedAt := rNow }).algorithm ∧
      (entryToProto (⟨newId, old.algorithm, StatusActive, newKey, cNow, 0,
        old.labels⟩ : KeyEntry)).labels = old.labels ∧
      (entryToProto { old with status := StatusRotated, rotatedAt := rNow }).status =
        StatusRotated ∧
      (entryToProto { old with status := StatusRotated, rotatedAt := rNow }).rotatedAt =
        some rNow) ∧
    (old.status ≠ StatusActive →
      rotateKey st keyId newId newKey cNow rNow = .error .failedPrecondition) := by
  constructor
  · intro hact hfresh hr
    have hup := updateStatus_of_get h StatusRotated
    have hmapped :
        MemoryStore.Get
          (st.map (fun x => if x.id == keyId then
            { x with status := StatusRotated, rotatedAt := rNow } else x)) keyId =
          .ok { old with status := StatusRotated, rotatedAt := rNow } :=
      get_map_update (fun x => { x with status := StatusRotated, rotatedAt := rNow })
        (fun x => rfl) h
    have hfresh2 : ∀ y ∈ st.map (fun x => if x.id == keyId then
        { x with status := StatusRotated, rotatedAt := rNow } else x), y.id ≠ newId := by
      intro y hy
      obtain ⟨x, hx, hxy⟩ := mem_map_update_id (g := fun x =>
        { x with status := StatusRotated, rotatedAt := rNow }) (fun _ => rfl) hy
      rw [hxy]
      exact hfresh x hx
    have hany2 : (st.map (fun x => if x.id == keyId then
        { x with status := StatusRotated, rotatedAt := rNow } else x)).any
          (fun e => e.id == newId) = false := by
      rw [List.any_eq_false]
      intro y hy
      simpa using hfresh2 y hy
    have hput : MemoryStore.Put
        (st.map (fun x => if x.id == keyId then
          { x with status := StatusRotated, rotatedAt := rNow } else x))
        ⟨newId, old.algorithm, StatusActive, newKey, cNow, 0, old.labels⟩ =
        .ok (st.map (fun x => if x.id == keyId then
            { x with status := StatusRotated, rotatedAt := rNow } else x)
          ++ [⟨newId, old.algorithm, StatusActive, newKey, cNow, 0, old.labels⟩]) := by
      unfold MemoryStore.Put
      rw [hany2]
      simp
    have hfind : (st.map (fun x => if x.id == keyId then
        { x with status := StatusRotated, rotatedAt := rNow } else x)).find?
          (fun x => x.id == newId) = none := by
      rw [List.find?_eq_none]
      intro y hy
      simpa using hfresh2 y hy
    have hfindOld := get_ok_iff_find?.mp hmapped
    refine ⟨?_, ?_, ?_, ?_, ?_, ?_, ?_, ?_, ?_⟩
    · unfold rotateKey
      rw [h]
      simp only [hup]
      rw [setRotatedAt_after_update]
      simp only [hput]
      rw [if_neg (show ¬(old.status ≠ StatusActive) from by simp [hact])]
    · rw [get_ok_iff_find?, List.find?_append, hfindOld]
      rfl
    · rw [get_ok_iff_find?, List.find?_append, hfind]
      simp [List.find?]
    · obtain ⟨hmem, hid⟩ := get_ok_mem h
      intro heq
      exact hfresh old hmem (heq ▸ hid)
    · simp [entryToProto, statusToProto, StatusActive]
    · simp [entryToProto]
    · simp [entryToProto]
    · simp [entryToProto, statusToProto, StatusRotated]
    · simp [entryToProto]
      omega
  · intro hne
    unfold rotateKey
    rw [h]
    simp only [if_pos hne]

/-- Witness for C1: a concrete ACTIVE key rotates, and a concrete ROTATED
key is rejected with failed-precondition. -/
theorem rotate_contract_witness :
    rotateKey [⟨"k1", 1, 1, ⟨[1]⟩, 5, 0, [("env", "t")]⟩] "k1" "k2" ⟨[2]⟩ 10 11 =
      .ok ([⟨"k1", 1, 2, ⟨[1]⟩, 5, 11, [("env", "t")]⟩,
            ⟨"k2", 1, 1, ⟨[2]⟩, 10, 0, [("env", "t")]⟩],
           ⟨"k1", 1, 2, 5, some 11, [("env", "t")]⟩,
           ⟨"k2", 1, 1, 10, none, [("env", "t")]⟩) ∧
    rotateKey [⟨"k3", 1, 2, ⟨[1]⟩, 5, 0, []⟩] "k3" "k4" ⟨[2]⟩ 10 11 =
      .error .failedPrecondition := by
  constructor
  · have h1 := (rotate_contract [⟨"k1", 1, 1, ⟨[1]⟩, 5, 0, [("env", "t")]⟩]
      "k1" "k2" ⟨[2]⟩ 10 11 ⟨"k1", 1, 1, ⟨[1]⟩, 5, 0, [("env", "t")]⟩
      (by decide)).1 (by decide) (by decide) (by decide)
    rw [h1.1]
    decide
  · exact (rotate_contract [⟨"k3", 1, 2, ⟨[1]⟩, 5, 0, []⟩] "k3" "k4" ⟨[2]⟩ 10 11
      ⟨"k3", 1, 2, ⟨[1]⟩, 5, 0, []⟩ (by decide)).2 (by decide)

/-- C2: `Sign` fails not-found for an absent id, failed-precondition for a
present key that is not ACTIVE, and signs exactly the ACTIVE keys;
`Verify` returns a result for a key of any status, failing only not-found
for an absent id. -/
theorem sign_verify_status_contract (st : MemoryStore) (keyId : String)
    (data rand : Bytes) (sig : SigVal) :
    (st.Get keyId = .error .keyNotFound →
      signOp st keyId data rand = .error .notFound ∧
      verifyOp st keyId data sig = .error .notFound) ∧
    (∀ e, st.Get keyId = .ok e → e.status ≠ StatusActive →
      signOp st keyId data rand = .error .failedPrecondition) ∧
    (∀ e, st.Get keyId = .ok e → e.status = StatusActive →
      signOp st keyId data rand = .ok (signECDSA e.privateKey rand data, keyId)) ∧
    (∀ e, st.Get keyId = .ok e →
      verifyOp st keyId data sig = .ok (verifyECDSA (publicKeyOf e.privateKey) data sig)) := by
  refine ⟨fun habs => ⟨?_, ?_⟩, fun e he hne => ?_, fun e he hact => ?_, fun e he => ?_⟩
  · unfold signOp
    rw [habs]
    rfl
  · unfold verifyOp
    rw [habs]
    rfl
  · unfold signOp
    rw [he]
    simp only [if_pos hne]
  · unfold signOp
    rw [he]
    simp only [if_neg (show ¬(e.status ≠ StatusActive) from by simp [hact])]
  · unfold verifyOp
    rw [he]

/-- Witness for C2: concrete sign/verify calls over a store holding one
ACTIVE and one ROTATED key. -/
theorem sign_verify_status_contract_witness :
    signOp [⟨"k1", 1, 1, ⟨[1]⟩, 5, 0, []⟩, ⟨"k2", 1, 2, ⟨[3]⟩, 6, 7, []⟩] "k1" [9] [4] =
      .ok (signECDSA ⟨[1]⟩ [4] [9], "k1") ∧
    signOp [⟨"k1", 1, 1, ⟨[1]⟩, 5, 0, []⟩, ⟨"k2", 1, 2, ⟨[3]⟩, 6, 7, []⟩] "k2" [9] [4] =
      .error .failedPrecondition ∧
    verifyOp [⟨"k1", 1, 1, ⟨[1]⟩, 5, 0, []⟩, ⟨"k2", 1, 2, ⟨[3]⟩, 6, 7, []⟩] "k2" [9]
      (signECDSA ⟨[3]⟩ [4] [9]) = .ok true ∧
    signOp [⟨"k1", 1, 1, ⟨[1]⟩, 5, 0, []⟩, ⟨"k2", 1, 2, ⟨[3]⟩, 6, 7, []⟩] "kx" [9] [4] =
      .error .notFound := by
  refine ⟨?_, ?_, ?_, ?_⟩
  · exact (sign_verify_status_contract [⟨"k1", 1, 1, ⟨[1]⟩, 5, 0, []⟩,
      ⟨"k2", 1, 2, ⟨[3]⟩, 6, 7, []⟩] "k1" [9] [4]
      (signECDSA ⟨[1]⟩ [4] [9])).2.2.1 ⟨"k1", 1, 1, ⟨[1]⟩, 5, 0, []⟩ (by decide) (by decide)
  · exact (sign_verify_status_contract [⟨"k1", 1, 1, ⟨[1]⟩, 5, 0, []⟩,
      ⟨"k2", 1, 2, ⟨[3]⟩, 6, 7, []⟩] "k2" [9] [4]
      (signECDSA ⟨[1]⟩ [4] [9])).2.1 ⟨"k2", 1, 2, ⟨[3]⟩, 6, 7, []⟩ (by decide) (by decide)
  · have h := (sign_verify_status_contract [⟨"k1", 1, 1, ⟨[1]⟩, 5, 0, []⟩,
      ⟨"k2", 1, 2, ⟨[3]⟩, 6, 7, []⟩] "k2" [9] [4]
      (signECDSA ⟨[3]⟩ [4] [9])).2.2.2 ⟨"k2", 1, 2, ⟨[3]⟩, 6, 7, []⟩ (by decide)
    rw [h]
    decide
  · exact ((sign_verify_status_contract [⟨"k1", 1, 1, ⟨[1]⟩, 5, 0, []⟩,
      ⟨"k2", 1, 2, ⟨[3]⟩, 6, 7, []⟩] "kx" [9] [4]
      (signECDSA ⟨[1]⟩ [4] [9])).1 (by decide)).1

theorem loadEntry_persistEntry (e : KeyEntry) : loadEntry (persistEntry e) = .ok e := rfl

/-- C5: saving a store and loading the resulting record list reconstructs
exactly the same entries — ids, algorithm, status, private material,
labels and both timestamps — and a key reloaded from its persisted bytes
signs data that verifies under the public key taken before the save. -/
theorem persistence_roundtrip (st : MemoryStore) :
    loadStore (saveStore st) = .ok st ∧
    (∀ e ∈ st, ∀ data rand : Bytes,
      ∃ k, unmarshalPrivateKey (marshalPrivateKey e.privateKey) = .ok k ∧
        verifyECDSA (publicKeyOf e.privateKey) data (signECDSA k rand data) = true) := by
  constructor
  · induction st with
    | nil => rfl
    | cons e t ih =>
      unfold saveStore at ih ⊢
      rw [List.map_cons]
      unfold loadStore at ih ⊢
      rw [List.mapM_cons, loadEntry_persistEntry, ih]
      rfl
  · intro e _ data rand
    exact ⟨e.privateKey, rfl, by simp [verifyECDSA, signECDSA]⟩

/-- Witness for C5 at a concrete two-entry store. -/
theorem persistence_roundtrip_witness :
    loadStore (saveStore [⟨"k1", 1, 1, ⟨[1, 2]⟩, 5, 0, [("a", "b")]⟩,
      ⟨"k2", 2, 3, ⟨[3]⟩, 6, 7, []⟩]) =
      .ok [⟨"k1", 1, 1, ⟨[1, 2]⟩, 5, 0, [("a", "b")]⟩, ⟨"k2", 2, 3, ⟨[3]⟩, 6, 7, []⟩] ∧
    ∃ k, unmarshalPrivateKey (marshalPrivateKey (⟨[1, 2]⟩ : PrivKey)) = .ok k ∧
      verifyECDSA (publicKeyOf ⟨[1, 2]⟩) [9] (signECDSA k [4] [9]) = true := by
  have h := persistence_roundtrip [⟨"k1", 1, 1, ⟨[1, 2]⟩, 5, 0, [("a", "b")]⟩,
    ⟨"k2", 2, 3, ⟨[3]⟩, 6, 7, []⟩]
  exact ⟨h.1, h.2 ⟨"k1", 1, 1, ⟨[1, 2]⟩, 5, 0, [("a", "b")]⟩ (by decide) [9] [4]⟩

theorem hkdfExtract_empty_salt (ikm : Bytes) :
    hkdfExtract [] ikm = hkdfExtract (List.replicate 32 0) ikm :=
  hmacSha256_empty_key_eq_zeros32 ikm

theorem deriveKey_at_32 (root ctx : Bytes) :
    DeriveKey root ctx 32 = .ok (hkdfSha256 [] root ctx 32) := by
  unfold DeriveKey hkdfSha256
  rw [if_neg (by norm_num)]
  rw [hkdfExtract_empty_salt]
  rfl

/-- C3: the 32-byte AES key used by the Encrypt and Decrypt operations is
exactly HKDF-SHA256 of the PKCS#8 DER of the entry's private key with
empty salt, info "vault-aes-gcm" and output length 32 (the Go code passes a
nil salt, which HKDF replaces by 32 zero bytes; HMAC-SHA256 pads either
salt to the same block key). -/
theorem derive_symmetric_key_spec (e : KeyEntry) (st : MemoryStore) (keyId : String)
    (pt aad ct : Bytes) (rand : Nat → Nat) :
    deriveSymmetricKey e =
      .ok (hkdfSha256 [] (marshalPrivateKey e.privateKey) vaultAesGcmLabel 32) ∧
    (hkdfSha256 [] (marshalPrivateKey e.privateKey) vaultAesGcmLabel 32).length = 32 ∧
    (st.Get keyId = .ok e → e.status = StatusActive →
      encryptOp rand st keyId pt aad =
        match EncryptAESGCM rand
          (hkdfSha256 [] (marshalPrivateKey e.privateKey) vaultAesGcmLabel 32) pt aad with
        | .ok c => .ok (c, keyId)
        | .error _ => .error .internal) ∧
    (st.Get keyId = .ok e →
      decryptOp st keyId ct aad =
        match DecryptAESGCM
          (hkdfSha256 [] (marshalPrivateKey e.privateKey) vaultAesGcmLabel 32) ct aad with
        | .ok p => .ok p
        | .error _ => .error .invalidArgument) := by
  have hkey : deriveSymmetricKey e =
      .ok (hkdfSha256 [] (marshalPrivateKey e.privateKey) vaultAesGcmLabel 32) :=
    deriveKey_at_32 (marshalPrivateKey e.privateKey) vaultAesGcmLabel
  refine ⟨hkey, ?_, fun he hact => ?_, fun he => ?_⟩
  · unfold hkdfSha256
    exact hkdfExpand_length _ _ _
  · unfold encryptOp
    rw [he]
    simp only [if_neg (show ¬(e.status ≠ StatusActive) from by simp [hact]), hkey]
    cases EncryptAESGCM rand
      (hkdfSha256 [] (marshalPrivateKey e.privateKey) vaultAesGcmLabel 32) pt aad <;> rfl
  · unfold decryptOp
    rw [he]
    simp only [hkey]
    cases DecryptAESGCM
      (hkdfSha256 [] (marshalPrivateKey e.privateKey) vaultAesGcmLabel 32) ct aad <;> rfl

/-- Witness for C3: the encryption facade on a concrete ACTIVE entry uses
exactly the specified HKDF-derived key. -/
theorem derive_symmetric_key_spec_witness :
    encryptOp (fun i => i) [⟨"k1", 1, 1, ⟨[1, 2, 3]⟩, 5, 0, []⟩] "k1" [7] [8] =
      match EncryptAESGCM (fun i => i)
        (hkdfSha256 [] (marshalPrivateKey (⟨[1, 2, 3]⟩ : PrivKey)) vaultAesGcmLabel 32)
        [7] [8] with
      | .ok c => .ok (c, "k1")
      | .error _ => .error .internal :=
  (derive_symmetric_key_spec ⟨"k1", 1, 1, ⟨[1, 2, 3]⟩, 5, 0, []⟩
    [⟨"k1", 1, 1, ⟨[1, 2, 3]⟩, 5, 0, []⟩] "k1" [7] [8] [] (fun i => i)).2.2.1
    (by decide) (by decide)

/-- C7: `DeriveKey` is a pure (hence deterministic) function of root,
context and length; it returns exactly `length` bytes when the length lies
in [1, 64] and fails otherwise; the facade surfaces the out-of-range case
as invalid-argument. -/
theorem derive_key_contract (root ctx : Bytes) (len : Int) (st : MemoryStore)
    (keyId : String) (e : KeyEntry) (root2 ctx2 : Bytes) (len2 : Int) :
    (1 ≤ len ∧ len ≤ 64 →
      DeriveKey root ctx len =
        .ok (hkdfExpand (hkdfExtract (List.replicate 32 0) root) ctx len.toNat) ∧
      (hkdfExpand (hkdfExtract (List.replicate 32 0) root) ctx len.toNat).length
        = len.toNat) ∧
    ((len < 1 ∨ 64 < len) → exceptOk (DeriveKey root ctx len) = false) ∧
    (root = root2 → ctx = ctx2 → len = len2 →
      DeriveKey root ctx len = DeriveKey root2 ctx2 len2) ∧
    (st.Get keyId = .ok e → e.status = StatusActive → (len < 1 ∨ 64 < len) →
      deriveKeyOp st keyId ctx len = .error .invalidArgument) := by
  refine ⟨fun hin => ⟨?_, hkdfExpand_length _ _ _⟩, fun hout => ?_,
    fun h1 h2 h3 => by rw [h1, h2, h3], fun he hact hout => ?_⟩
  · unfold DeriveKey
    rw [if_neg (by omega)]
  · unfold DeriveKey
    rw [if_pos (by omega)]
    rfl
  · unfold deriveKeyOp
    rw [he]
    simp only [if_neg (show ¬(e.status ≠ StatusActive) from by simp [hact]),
      if_pos (show len ≤ 0 ∨ len > 64 from by omega)]

/-- Witness for C7: a 32-byte derivation succeeds with 32 bytes, length 100
fails, and the facade reports invalid-argument for length 0 on an ACTIVE
root. -/
theorem derive_key_contract_witness :
    DeriveKey [1] [2] 32 =
      .ok (hkdfExpand (hkdfExtract (List.replicate 32 0) [1]) [2] (Int.toNat 32)) ∧
    (hkdfExpand (hkdfExtract (List.replicate 32 0) [1]) [2] (Int.toNat 32)).length
      = Int.toNat 32 ∧
    exceptOk (DeriveKey [1] [2] 100) = false ∧
    deriveKeyOp [⟨"k1", 1, 1, ⟨[1]⟩, 5, 0, []⟩] "k1" [2] 0 = .error .invalidArgument := by
  have h32 := (derive_key_contract [1] [2] 32 [] "x" ⟨"x", 1, 1, ⟨[]⟩, 0, 0, []⟩
    [1] [2] 32).1 (by decide)
  have h100 := (derive_key_contract [1] [2] 100 [] "x" ⟨"x", 1, 1, ⟨[]⟩, 0, 0, []⟩
    [1] [2] 100).2.1 (by decide)
  have hop := (derive_key_contract [2] [2] 0 [⟨"k1", 1, 1, ⟨[1]⟩, 5, 0, []⟩] "k1"
    ⟨"k1", 1, 1, ⟨[1]⟩, 5, 0, []⟩ [2] [2] 0).2.2.2 (by decide) (by decide) (by decide)
  exact ⟨h32.1, h32.2, h100, hop⟩

theorem queryAux_no_limit (f : AuditRecord → Bool) (lim : Int) (hlim : ¬lim > 0) :
    ∀ (l : List AuditRecord) (cnt : Nat), queryAux f lim l cnt = l.filter f := by
  intro l
  induction l with
  | nil => intro cnt; rfl
  | cons e rest ih =>
    intro cnt
    by_cases hf : f e
    · rw [queryAux, if_pos hf, if_neg (by simp [hlim]), ih, List.filter_cons_of_pos hf]
    · rw [queryAux, if_neg hf, ih, List.filter_cons_of_neg hf]

theorem queryAux_limit (f : AuditRecord → Bool) (lim : Int) (hlim : lim > 0) :
    ∀ (l : List AuditRecord) (cnt : Nat), (cnt : Int) < lim →
      queryAux f lim l cnt = (l.filter f).take (lim.toNat - cnt) := by
  intro l
  induction l with
  | nil => intro cnt _; simp [queryAux]
  | cons e rest ih =>
    intro cnt hcnt
    by_cases hf : f e
    · rw [queryAux, if_pos hf, List.filter_cons_of_pos hf]
      by_cases hstop : lim > 0 ∧ ((cnt : Int) + 1) ≥ lim
      · rw [if_pos hstop]
        have hone : lim.toNat - cnt = 1 := by omega
        rw [hone]
        rfl
      · rw [if_neg hstop]
        have hlt : ((cnt : Int) + 1) < lim := by
          rcases not_and_or.mp hstop with h | h
          · exact absurd hlim h
          · omega
        rw [ih (cnt + 1) (by push_cast; omega)]
        have hsub : lim.toNat - cnt = (lim.toNat - (cnt + 1)) + 1 := by omega
        rw [hsub]
        rfl
    · rw [queryAux, if_neg hf, List.filter_cons_of_neg hf, ih cnt hcnt]

/-- C9: the audit query returns exactly the retained records matching every
provided filter, walking the retained list newest-first, truncated to
`limit` records when `limit > 0` and unbounded otherwise; when the retained
timestamps are non-decreasing in emission order the result is in reverse
chronological order. -/
theorem audit_query_contract (store : List AuditRecord) (keyID operation : String)
    (start endT : Nat) (limit : Int) :
    auditQuery store keyID operation start endT limit =
      auditQuerySpec store keyID operation start endT limit ∧
    (List.Pairwise (fun a b => a ≤ b) (store.map (fun r => r.timestamp)) →
      List.Pairwise (fun a b => b ≤ a)
        ((auditQuery store keyID operation start endT limit).map
          (fun r => r.timestamp))) := by
  have hmain : auditQuery store keyID operation start endT limit =
      auditQuerySpec store keyID operation start endT limit := by
    unfold auditQuery auditQuerySpec
    by_cases hlim : limit > 0
    · rw [queryAux_limit _ limit hlim store.reverse 0 (by exact_mod_cast hlim),
        if_pos hlim]
      simp
    · rw [queryAux_no_limit _ limit hlim store.reverse 0, if_neg hlim]
  refine ⟨hmain, fun hsort => ?_⟩
  rw [hmain]
  have hrev : List.Pairwise (fun a b : AuditRecord => b.timestamp ≤ a.timestamp)
      store.reverse := by
    rw [List.pairwise_reverse]
    exact (List.pairwise_map.mp hsort)
  have hfil : List.Pairwise (fun a b : AuditRecord => b.timestamp ≤ a.timestamp)
      (store.reverse.filter (auditMatches keyID operation start endT)) :=
    List.Pairwise.sublist (List.filter_sublist _) hrev
  unfold auditQuerySpec
  by_cases hlim : limit > 0
  · rw [if_pos hlim]
    exact List.pairwise_map.mpr
      (List.Pairwise.sublist (List.take_sublist _ _) hfil)
  · rw [if_neg hlim]
    exact List.pairwise_map.mpr hfil

/-- Witness for C9: a concrete retained list with filters and a limit. -/
theorem audit_query_contract_witness :
    auditQuery
      [⟨"a1", 1, "Sign", "k1", "OK", "", []⟩, ⟨"a2", 2, "Sign", "k2", "OK", "", []⟩,
       ⟨"a3", 3, "Sign", "k1", "OK", "", []⟩, ⟨"a4", 4, "Verify", "k1", "OK", "", []⟩,
       ⟨"a5", 5, "Sign", "k1", "OK", "", []⟩]
      "k1" "Sign" 0 0 2 =
      auditQuerySpec
        [⟨"a1", 1, "Sign", "k1", "OK", "", []⟩, ⟨"a2", 2, "Sign", "k2", "OK", "", []⟩,
         ⟨"a3", 3, "Sign", "k1", "OK", "", []⟩, ⟨"a4", 4, "Verify", "k1", "OK", "", []⟩,
         ⟨"a5", 5, "Sign", "k1", "OK", "", []⟩]
        "k1" "Sign" 0 0 2 ∧
    auditQuery
      [⟨"a1", 1, "Sign", "k1", "OK", "", []⟩, ⟨"a2", 2, "Sign", "k2", "OK", "", []⟩,
       ⟨"a3", 3, "Sign", "k1", "OK", "", []⟩, ⟨"a4", 4, "Verify", "k1", "OK", "", []⟩,
       ⟨"a5", 5, "Sign", "k1", "OK", "", []⟩]
      "k1" "Sign" 0 0 2 =
      [⟨"a5", 5, "Sign", "k1", "OK", "", []⟩, ⟨"a3", 3, "Sign", "k1", "OK", "", []⟩] ∧
    List.Pairwise (fun a b => b ≤ a)
      ((auditQuery
        [⟨"a1", 1, "Sign", "k1", "OK", "", []⟩, ⟨"a2", 2, "Sign", "k2", "OK", "", []⟩,
         ⟨"a3", 3, "Sign", "k1", "OK", "", []⟩, ⟨"a4", 4, "Verify", "k1", "OK", "", []⟩,
         ⟨"a5", 5, "Sign", "k1", "OK", "", []⟩]
        "k1" "Sign" 0 0 2).map (fun r => r.timestamp)) := by
  have h := audit_query_contract
    [⟨"a1", 1, "Sign", "k1", "OK", "", []⟩, ⟨"a2", 2, "Sign", "k2", "OK", "", []⟩,
     ⟨"a3", 3, "Sign", "k1", "OK", "", []⟩, ⟨"a4", 4, "Verify", "k1", "OK", "", []⟩,
     ⟨"a5", 5, "Sign", "k1", "OK", "", []⟩] "k1" "Sign" 0 0 2
  exact ⟨h.1, by decide, h.2 (by decide)⟩

theorem gcmNonce_length (rand : Nat → Nat) : (gcmNonce rand).length = 12 := by
  simp [gcmNonce, gcmNonceSize]

theorem gcmCtPart_length (key nonce pt : Bytes) :
    (gcmCtPart key nonce pt).length = pt.length := by
  simp [gcmCtPart]

theorem zipWith_xor_cancel :
    ∀ (l ks : Bytes), l.length ≤ ks.length →
      List.zipWith (fun a b => a ^^^ b) (List.zipWith (fun a b => a ^^^ b) l ks) ks = l := by
  intro l
  induction l with
  | nil => intro ks _; simp
  | cons a t ih =>
    intro ks hk
    cases ks with
    | nil => simp at hk
    | cons k kt =>
      simp only [List.zipWith_cons_cons, List.cons.injEq]
      exact ⟨Nat.xor_cancel_right k a, ih kt (by simpa using hk)⟩

theorem encrypt_ok_elim {rand : Nat → Nat} {key pt aad ct : Bytes}
    (h : EncryptAESGCM rand key pt aad = .ok ct) :
    aesKeySizeOk key = true ∧
    ct = gcmNonce rand ++ gcmSeal key (gcmNonce rand) pt aad := by
  unfold EncryptAESGCM at h
  by_cases hk : aesKeySizeOk key
  · rw [if_pos hk] at h
    cases h
    exact ⟨hk, rfl⟩
  · rw [if_neg hk] at h
    exact absurd h (by simp)

theorem gcmOpen_frame (key2 key nonce pt aad aad2 : Bytes) :
    gcmOpen key2 nonce (gcmSeal key nonce pt aad) aad2 =
      if gcmTag key2 nonce aad2 (gcmCtPart key nonce pt) =
          gcmTag key nonce aad (gcmCtPart key nonce pt) then
        some (List.zipWith (fun a b => a ^^^ b) (gcmCtPart key nonce pt)
          ((List.range (gcmCtPart key nonce pt).length).map (gcmKeystream key2 nonce)))
      else none := by
  unfold gcmOpen gcmSeal
  have hlen : (gcmCtPart key nonce pt ++ [gcmTag key nonce aad (gcmCtPart key nonce pt)]).length
      = (gcmCtPart key nonce pt).length + 1 := by simp
  rw [if_neg (by omega)]
  have hsub : (gcmCtPart key nonce pt ++
      [gcmTag key nonce aad (gcmCtPart key nonce pt)]).length - 1
      = (gcmCtPart key nonce pt).length := by omega
  rw [hsub]
  have htake : (gcmCtPart key nonce pt ++
      [gcmTag key nonce aad (gcmCtPart key nonce pt)]).take (gcmCtPart key nonce pt).length
      = gcmCtPart key nonce pt := List.take_left _ _
  have hdrop : (gcmCtPart key nonce pt ++
      [gcmTag key nonce aad (gcmCtPart key nonce pt)]).drop (gcmCtPart key nonce pt).length
      = [gcmTag key nonce aad (gcmCtPart key nonce pt)] := List.drop_left _ _
  rw [htake, hdrop]
  by_cases htag : gcmTag key2 nonce aad2 (gcmCtPart key nonce pt) =
      gcmTag key nonce aad (gcmCtPart key nonce pt)
  · rw [if_pos htag, if_pos (by rw [htag])]
  · rw [if_neg htag, if_neg (by intro hc; exact htag (by injection hc with h1; exact h1.symm))]

theorem decrypt_framed (key2 key pt aad aad2 : Bytes) (rand : Nat → Nat)
    (hk2 : aesKeySizeOk key2 = true) :
    DecryptAESGCM key2 (gcmNonce rand ++ gcmSeal key (gcmNonce rand) pt aad) aad2 =
      if gcmTag key2 (gcmNonce rand) aad2 (gcmCtPart key (gcmNonce rand) pt) =
          gcmTag key (gcmNonce rand) aad (gcmCtPart key (gcmNonce rand) pt) then
        .ok (List.zipWith (fun a b => a ^^^ b) (gcmCtPart key (gcmNonce rand) pt)
          ((List.range (gcmCtPart key (gcmNonce rand) pt).length).map
            (gcmKeystream key2 (gcmNonce rand))))
      else .error "aes gcm decrypt" := by
  unfold DecryptAESGCM
  rw [if_pos hk2]
  have hlen : (gcmNonce rand ++ gcmSeal key (gcmNonce rand) pt aad).length =
      12 + ((gcmCtPart key (gcmNonce rand) pt).length + 1) := by
    simp [gcmSeal, gcmNonce_length]
  rw [if_neg (by rw [hlen]; unfold gcmNonceSize; omega)]
  have h12 : gcmNonceSize = (gcmNonce rand).length := (gcmNonce_length rand).symm
  rw [h12, List.take_left, List.drop_left, gcmOpen_frame]
  by_cases htag : gcmTag key2 (gcmNonce rand) aad2 (gcmCtPart key (gcmNonce rand) pt) =
      gcmTag key (gcmNonce rand) aad (gcmCtPart key (gcmNonce rand) pt)
  · rw [if_pos htag, if_pos htag]
  · rw [if_neg htag, if_neg htag]

theorem gcmTag_eq_iff {key2 key nonce aad aad2 ct : Bytes}
    (hbk2 : isByteList key2) (hbk : isByteList key)
    (hba2 : isByteList aad2) (hba : isByteList aad) :
    gcmTag key2 nonce aad2 ct = gcmTag key nonce aad ct ↔ key2 = key ∧ aad2 = aad := by
  unfold gcmTag
  rw [Nat.pair_eq_pair, Nat.pair_eq_pair, Nat.pair_eq_pair]
  constructor
  · rintro ⟨h1, _, h3, _⟩
    exact ⟨encodeBytes_injOn hbk2 hbk h1, encodeBytes_injOn hba2 hba h3⟩
  · rintro ⟨rfl, rfl⟩
    exact ⟨rfl, rfl, rfl, rfl⟩

/-- C4: decrypting the output of `EncryptAESGCM` with the same key and aad
returns exactly the plaintext; decrypting the same framed ciphertext with a
different aad, or with a different key, fails. -/
theorem aead_roundtrip_and_auth (key pt aad ct : Bytes) (rand : Nat → Nat)
    (hbk : isByteList key) (hba : isByteList aad)
    (henc : EncryptAESGCM rand key pt aad = .ok ct) :
    DecryptAESGCM key ct aad = .ok pt ∧
    (∀ aad2, isByteList aad2 → aad2 ≠ aad →
      exceptOk (DecryptAESGCM key ct aad2) = false) ∧
    (∀ key2, isByteList key2 → key2 ≠ key →
      exceptOk (DecryptAESGCM key2 ct aad) = false) := by
  obtain ⟨hk, rfl⟩ := encrypt_ok_elim henc
  refine ⟨?_, fun aad2 hba2 hne => ?_, fun key2 hbk2 hne => ?_⟩
  · rw [decrypt_framed key key pt aad aad rand hk, if_pos rfl, gcmCtPart_length]
    unfold gcmCtPart
    have hxor := zipWith_xor_cancel pt
      ((List.range pt.length).map (gcmKeystream key (gcmNonce rand))) (by simp)
    rw [hxor]
  · rw [decrypt_framed key key pt aad aad2 rand hk]
    rw [if_neg (fun hc => hne ((gcmTag_eq_iff hbk hbk hba2 hba).mp hc).2)]
    rfl
  · by_cases hk2 : aesKeySizeOk key2
    · rw [decrypt_framed key2 key pt aad aad rand hk2]
      rw [if_neg (fun hc => hne ((gcmTag_eq_iff hbk2 hbk hba hba).mp hc).1)]
      rfl
    · unfold DecryptAESGCM
      rw [if_neg hk2]
      rfl

/-- Witness for C4 at a concrete key, plaintext, aad, wrong aad and wrong
key. -/
theorem aead_roundtrip_and_auth_witness :
    ∃ ct, EncryptAESGCM (fun i => i) (List.replicate 16 7) [1, 2, 3] [9] = .ok ct ∧
      DecryptAESGCM (List.replicate 16 7) ct [9] = .ok [1, 2, 3] ∧
      exceptOk (DecryptAESGCM (List.replicate 16 7) ct [8]) = false ∧
      exceptOk (DecryptAESGCM (List.replicate 16 8) ct [9]) = false := by
  refine ⟨_, rfl, ?_⟩
  have h := aead_roundtrip_and_auth (List.replicate 16 7) [1, 2, 3] [9] _
    (fun i => i) (by decide) (by decide) rfl
  exact ⟨h.1, h.2.1 [8] (by decide) (by decide),
    h.2.2 (List.replicate 16 8) (by decide) (by decide)⟩

/-- C8 counterexample: a 16-byte key is not 32 bytes long, yet
`EncryptAESGCM` succeeds on it (Go `aes.NewCipher` accepts AES-128 keys),
refuting "for every key whose length is not 32 bytes, encryption fails". -/
theorem encrypt_key_size_cex :
    (List.replicate 16 0 : Bytes).length ≠ 32 ∧
    exceptOk (EncryptAESGCM (fun i => i) (List.replicate 16 0) [] []) = true := by
  decide

/-- C8 (amended): `EncryptAESGCM` fails exactly when the key length is not
an AES key size (16, 24 or 32 bytes); on a 32-byte key it succeeds with
output laid out as nonce ‖ ciphertext ‖ tag, where the nonce is the 12
bytes drawn from the random source and the ciphertext has the plaintext's
length. -/
theorem encrypt_key_size_and_layout (rand : Nat → Nat) (key pt aad : Bytes) :
    (¬(key.length = 16 ∨ key.length = 24 ∨ key.length = 32) →
      EncryptAESGCM rand key pt aad = .error "aes new cipher: invalid key size") ∧
    (key.length = 32 →
      EncryptAESGCM rand key pt aad =
        .ok (gcmNonce rand ++ (gcmCtPart key (gcmNonce rand) pt ++
          [gcmTag key (gcmNonce rand) aad (gcmCtPart key (gcmNonce rand) pt)])) ∧
      (gcmNonce rand).length = 12 ∧
      (gcmCtPart key (gcmNonce rand) pt).length = pt.length) := by
  constructor
  · intro hbad
    unfold EncryptAESGCM
    rw [if_neg (by simp [aesKeySizeOk]; omega)]
  · intro h32
    refine ⟨?_, gcmNonce_length rand, gcmCtPart_length _ _ _⟩
    unfold EncryptAESGCM
    rw [if_pos (by simp [aesKeySizeOk, h32])]
    rfl

/-- Witness for the amended C8: a 32-byte key succeeds with the stated
layout and a 15-byte key fails. -/
theorem encrypt_key_size_and_layout_witness :
    EncryptAESGCM (fun i => i) (List.replicate 32 5) [1] [] =
      .ok (gcmNonce (fun i => i) ++
        (gcmCtPart (List.replicate 32 5) (gcmNonce (fun i => i)) [1] ++
         [gcmTag (List.replicate 32 5) (gcmNonce (fun i => i)) []
           (gcmCtPart (List.replicate 32 5) (gcmNonce (fun i => i)) [1])])) ∧
    EncryptAESGCM (fun i => i) (List.replicate 15 5) [1] [] =
      .error "aes new cipher: invalid key size" := by
  constructor
  · exact ((encrypt_key_size_and_layout (fun i => i) (List.replicate 32 5) [1] []).2
      (by decide)).1
  · exact (encrypt_key_size_and_layout (fun i => i) (List.replicate 15 5) [1] []).1
      (by decide)
